import Mathlib

/-!
Verification of the UKV embedded STL key-value backend (`src/src/backend_stl.cpp`)
against its natural-language specification.

The C++ code is shallowly embedded: `std::map<ukv_key_t, stl_value_t>` becomes a
key-sorted association list, `std::unordered_map`/`std::unordered_set` become
association lists with emplace/insert semantics, machine integers become `Nat`/`Int`
(the 64-bit generation counter never overflows in any modelled run), and fallible
operations return `Except String`.
-/

namespace UkvStl

/-- `ukv_key_t` is `int64_t`; keys are totally ordered by signed comparison. -/
abbrev Key := Int

/-- `ukv_collection_t` identifies a collection; `0` is the main collection. -/
abbrev ColId := Nat

/-- A binary payload (`buffer_t`), byte identity only. -/
abbrev Bytes := List Nat

/-- `generation_t`, the monotone generation counter. -/
abbrev Generation := Nat

/-- `ukv_length_missing_k = std::numeric_limits<ukv_length_t>::max()` with
`ukv_length_t = uint32_t`. -/
def ukvLengthMissing : Nat := 2 ^ 32 - 1

/-- `stl_value_t`: payload buffer, creation generation, tombstone flag. -/
structure StlValue where
  buffer : Bytes
  generation : Generation
  isDeleted : Bool
deriving Repr, DecidableEq

/-- `stl_value_t::reset(gen)`: set the tombstone, stamp the generation, clear the buffer. -/
def StlValue.reset (g : Generation) : StlValue := ⟨[], g, true⟩

/-- `std::map::find` on the pair list: the value stored at `k`, tombstones included. -/
def pairsFind (k : Key) : List (Key × StlValue) → Option StlValue
  | [] => none
  | (k', v) :: t => if k' = k then some v else pairsFind k t

/-- In-place mutation through a found `std::map` iterator: replace the value at `k`. -/
def pairsReplace (k : Key) (v : StlValue) : List (Key × StlValue) → List (Key × StlValue)
  | [] => []
  | (k', v') :: t => if k' = k then (k', v) :: t else (k', v') :: pairsReplace k v t

/-- `std::map::emplace` of a key that is absent: sorted insertion. -/
def pairsInsert (k : Key) (v : StlValue) : List (Key × StlValue) → List (Key × StlValue)
  | [] => [(k, v)]
  | (k', v') :: t =>
    if k < k' then (k, v) :: (k', v') :: t
    else if k = k' then (k, v) :: t
    else (k', v') :: pairsInsert k v t

/-- `stl_col_t`: the ordered store plus the `unique_elements` counter. -/
structure StlCol where
  pairs : List (Key × StlValue)
  uniqueElements : Nat

/-- The empty collection. -/
def emptyCol : StlCol := ⟨[], 0⟩

/-- `stl_db_t`: all collections (addressed by id, `0` = main) and the
`youngest_generation` counter. -/
structure StlDb where
  cols : ColId → StlCol
  youngest : Generation

/-- A freshly opened database with no persisted data. -/
def emptyDb : StlDb := ⟨fun _ => emptyCol, 0⟩

/-- Functional update of one collection, as `stl_col(db, col)` returns a mutable
reference into the database. -/
def updateCols (f : ColId → StlCol) (c : ColId) (col : StlCol) : ColId → StlCol :=
  fun c' => if c' = c then col else f c'

/-- A write/read target: `place_t`, i.e. a collection id and a key. -/
abbrev Place := ColId × Key

/--
Modelled from the spec: the content-resolution helpers (`contents_arg_t` and
`value_view_t`, declared in headers that are not under `src/`) resolve each write
task's content before `write_head`/`write_txn` test `!content`. Spec §4.4.2: a null
content pointer (or a cleared presence bit) denotes deletion; otherwise the task
carries `lengths[i]` bytes, possibly zero — the null state and the empty state are
distinct. The resolved content is therefore `Option Bytes`: `none` for the null
(deletion) state, `some bs` (with `bs` possibly empty) for an upsert payload, and
`contentIsMissing` embeds the `!content` test, true exactly for the null state.
-/
def contentIsMissing (c : Option Bytes) : Bool := c.isNone

/-- One batched-write entry: a place plus its resolved content. -/
abbrev WriteTask := Place × Option Bytes

/-- One iteration of the `write_head` loop (`backend_stl.cpp:248-271`): on a found key,
bump the generation and overwrite buffer and tombstone flag in place; on an absent key
with non-null content, bump the generation, emplace a live entry and increment
`unique_elements`; on an absent key with null content, do nothing. -/
def writeHeadStep (db : StlDb) : WriteTask → StlDb
  | ((c, k), content) =>
    match pairsFind k (db.cols c).pairs with
    | some _ =>
      { cols := updateCols db.cols c
          ⟨pairsReplace k ⟨content.getD [], db.youngest + 1, contentIsMissing content⟩
            (db.cols c).pairs, (db.cols c).uniqueElements⟩,
        youngest := db.youngest + 1 }
    | none =>
      match content with
      | some bs =>
        { cols := updateCols db.cols c
            ⟨pairsInsert k ⟨bs, db.youngest + 1, false⟩ (db.cols c).pairs,
              (db.cols c).uniqueElements + 1⟩,
          youngest := db.youngest + 1 }
      | none => db

/-- `write_head`: apply the batch entries in array-index order under the exclusive lock.
The optional flush is modelled separately (`saveToDiskCol`), as it never alters the
in-memory state. -/
def writeHead (db : StlDb) (batch : List WriteTask) : StlDb :=
  batch.foldl writeHeadStep db

/-- One lookup of `read_head_under_lock` (`backend_stl.cpp:307-323`): found means the
entry exists and is not tombstoned; the enumerator then receives the buffer, else the
null value view. -/
def readHeadOne (db : StlDb) (p : Place) : Option Bytes :=
  match pairsFind p.2 (db.cols p.1).pairs with
  | some v => if v.isDeleted then none else some v.buffer
  | none => none

/-- `read_head_under_lock` over a task batch. -/
def readHead (db : StlDb) (tasks : List Place) : List (Option Bytes) :=
  tasks.map (readHeadOne db)

/-- `ukv_read`'s meta enumerator: `presences[i] = bool(value)`. -/
def presenceBit (r : Option Bytes) : Bool := r.isSome

/-- `ukv_read`'s meta enumerator: `lens[i] = value ? value.size() : ukv_length_missing_k`. -/
def lengthField (r : Option Bytes) : Nat :=
  match r with
  | some bs => bs.length
  | none => ukvLengthMissing

theorem pairsFind_replace_self (k : Key) (v : StlValue) (l : List (Key × StlValue))
    (h : (pairsFind k l).isSome) : pairsFind k (pairsReplace k v l) = some v := by
  induction l with
  | nil => simp [pairsFind] at h
  | cons p t ih =>
    obtain ⟨k', v'⟩ := p
    by_cases hk : k' = k
    · simp [pairsFind, pairsReplace, hk]
    · simp [pairsFind, pairsReplace, hk] at h ⊢
      exact ih h

theorem pairsFind_insert_self (k : Key) (v : StlValue) (l : List (Key × StlValue)) :
    pairsFind k (pairsInsert k v l) = some v := by
  induction l with
  | nil => simp [pairsInsert, pairsFind]
  | cons p t ih =>
    obtain ⟨k', v'⟩ := p
    by_cases hlt : k < k'
    · simp [pairsInsert, hlt, pairsFind]
    · by_cases heq : k = k'
      · simp [pairsInsert, hlt, heq, pairsFind]
      · have hne : ¬ k' = k := fun h => heq h.symm
        simp [pairsInsert, hlt, heq, pairsFind, hne]
        exact ih

theorem pairsFind_replace_other (k k' : Key) (v : StlValue) (l : List (Key × StlValue))
    (h : k' ≠ k) : pairsFind k' (pairsReplace k v l) = pairsFind k' l := by
  induction l with
  | nil => rfl
  | cons p t ih =>
    obtain ⟨k0, v0⟩ := p
    by_cases hk : k0 = k
    · have hne : ¬ k = k' := fun hh => h hh.symm
      simp [pairsReplace, pairsFind, hk, hne]
    · simp [pairsReplace, pairsFind, hk, ih]

theorem pairsFind_insert_other (k k' : Key) (v : StlValue) (l : List (Key × StlValue))
    (h : k' ≠ k) : pairsFind k' (pairsInsert k v l) = pairsFind k' l := by
  have hne : ¬ k = k' := fun hh => h hh.symm
  induction l with
  | nil => simp [pairsInsert, pairsFind, hne]
  | cons p t ih =>
    obtain ⟨k0, v0⟩ := p
    by_cases hlt : k < k0
    · simp [pairsInsert, hlt, pairsFind, hne]
    · by_cases heq : k = k0
      · have hne0 : ¬ k0 = k' := fun hh => h (hh.symm.trans heq.symm)
        simp [pairsInsert, hlt, heq, pairsFind, hne, hne0]
      · simp [pairsInsert, hlt, heq, pairsFind, ih]

/-- A summary of one `write_head` iteration with non-null content: the target key holds
the new bytes at the freshly issued generation `youngest + 1` and is live; other keys
and other collections are untouched. -/
theorem writeHeadStep_some (db : StlDb) (c : ColId) (k : Key) (v : Bytes) :
    (writeHeadStep db ((c, k), some v)).youngest = db.youngest + 1 ∧
    pairsFind k (((writeHeadStep db ((c, k), some v)).cols c)).pairs =
      some ⟨v, db.youngest + 1, false⟩ ∧
    (∀ k', k' ≠ k →
      pairsFind k' (((writeHeadStep db ((c, k), some v)).cols c)).pairs =
        pairsFind k' ((db.cols c)).pairs) ∧
    (∀ c', c' ≠ c → (writeHeadStep db ((c, k), some v)).cols c' = db.cols c') := by
  cases hfind : pairsFind k (db.cols c).pairs with
  | some w =>
    have hsome : (pairsFind k (db.cols c).pairs).isSome := by rw [hfind]; rfl
    refine ⟨?_, ?_, ?_, ?_⟩
    · simp [writeHeadStep, hfind]
    · simp only [writeHeadStep, hfind, updateCols, if_pos rfl]
      simpa [contentIsMissing] using
        pairsFind_replace_self k ⟨v, db.youngest + 1, false⟩ (db.cols c).pairs hsome
    · intro k' hk'
      simp only [writeHeadStep, hfind, updateCols, if_pos rfl]
      simpa [contentIsMissing] using
        pairsFind_replace_other k k' ⟨v, db.youngest + 1, false⟩ (db.cols c).pairs hk'
    · intro c' hc'
      simp [writeHeadStep, hfind, updateCols, hc']
  | none =>
    refine ⟨?_, ?_, ?_, ?_⟩
    · simp [writeHeadStep, hfind]
    · simp only [writeHeadStep, hfind, updateCols, if_pos rfl]
      exact pairsFind_insert_self k _ _
    · intro k' hk'
      simp only [writeHeadStep, hfind, updateCols, if_pos rfl]
      exact pairsFind_insert_other k k' _ _ hk'
    · intro c' hc'
      simp [writeHeadStep, hfind, updateCols, hc']

/-- Claim C1: after a successful non-transactional write of `V` to `(C, K)` with no
flush and no intervening mutations, a head read of `(C, K)` returns exactly the bytes
`V` with its presence bit set. -/
theorem read_after_write_head (db : StlDb) (c : ColId) (k : Key) (v : Bytes) :
    readHeadOne (writeHead db [((c, k), some v)]) (c, k) = some v ∧
    presenceBit (readHeadOne (writeHead db [((c, k), some v)]) (c, k)) = true ∧
    lengthField (readHeadOne (writeHead db [((c, k), some v)]) (c, k)) = v.length := by
  have h := writeHeadStep_some db c k v
  have hw : writeHead db [((c, k), some v)] = writeHeadStep db ((c, k), some v) := rfl
  have hmain : readHeadOne (writeHead db [((c, k), some v)]) (c, k) = some v := by
    rw [hw]
    unfold readHeadOne
    rw [h.2.1]
    simp
  refine ⟨hmain, ?_, ?_⟩
  · rw [hmain]; rfl
  · rw [hmain]; rfl

/-! ## Transactions -/

/-- Lexicographic order of `col_key_t` (collection id first, then key), the ordering of
the transaction's `std::map<col_key_t, buffer_t> upserted`. -/
def colKeyLt (a b : Place) : Prop := a.1 < b.1 ∨ (a.1 = b.1 ∧ a.2 < b.2)

instance (a b : Place) : Decidable (colKeyLt a b) := by
  unfold colKeyLt
  infer_instance

/-- Lookup in the transaction's upsert map. -/
def upsFind (ck : Place) : List (Place × Bytes) → Option Bytes
  | [] => none
  | (ck', bs) :: t => if ck' = ck then some bs else upsFind ck t

/-- `std::map::insert_or_assign` on the upsert map, keeping the lexicographic order. -/
def upsAssign (ck : Place) (bs : Bytes) : List (Place × Bytes) → List (Place × Bytes)
  | [] => [(ck, bs)]
  | (ck', bs') :: t =>
    if colKeyLt ck ck' then (ck, bs) :: (ck', bs') :: t
    else if ck = ck' then (ck, bs) :: t
    else (ck', bs') :: upsAssign ck bs t

/-- `std::map::erase(key)` on the upsert map: drop the node carrying the key. -/
def upsErase (ck : Place) : List (Place × Bytes) → List (Place × Bytes)
  | [] => []
  | (ck', bs') :: t => if ck' = ck then upsErase ck t else (ck', bs') :: upsErase ck t

/-- `std::unordered_set::insert` on the remove set. -/
def removedInsert (ck : Place) (l : List Place) : List Place :=
  if ck ∈ l then l else l ++ [ck]

/-- `std::unordered_map::emplace` on the tracked-read map: a no-op when the key is
already present. -/
def requestedEmplace (ck : Place) (g : Generation) (l : List (Place × Generation)) :
    List (Place × Generation) :=
  if l.any (fun e => e.1 = ck) then l else l ++ [(ck, g)]

/-- `stl_txn_t` (`backend_stl.cpp:84-91`): the private upsert map, tracked-read map and
remove set, plus the transaction's generation. The struct stores no error or poison
state whatsoever. -/
structure StlTxn where
  upserted : List (Place × Bytes)
  requested : List (Place × Generation)
  removed : List Place
  generation : Generation

/-- `ukv_transaction_begin`: the transaction's generation is the caller-supplied one
when nonzero, else `++youngest_generation`; all three overlay containers are cleared. -/
def transactionBegin (db : StlDb) (cGen : Generation) : StlTxn × StlDb :=
  if cGen = 0 then (⟨[], [], [], db.youngest + 1⟩, { db with youngest := db.youngest + 1 })
  else (⟨[], [], [], cGen⟩, db)

/-- One iteration of the `write_txn` loop (`backend_stl.cpp:290-304`): null content
erases the key from `upserted` and inserts it into `removed`; non-null content
insert-or-assigns into `upserted` (and touches `removed` in no way). -/
def writeTxnStep (txn : StlTxn) (t : WriteTask) : StlTxn :=
  match t.2 with
  | none => { txn with upserted := upsErase t.1 txn.upserted,
                       removed := removedInsert t.1 txn.removed }
  | some bs => { txn with upserted := upsAssign t.1 bs txn.upserted }

/-- `write_txn`: apply the batch entries in array-index order under the shared lock. -/
def writeTxn (txn : StlTxn) (batch : List WriteTask) : StlTxn :=
  batch.foldl writeTxnStep txn

/--
Modelled from the spec: `entry_was_overwritten` (declared in `helpers.hpp`, which is
not under `src/`). Spec §4.4.1 and §4.5: a stored record was overwritten by a
concurrent committed transaction exactly when its generation exceeds the transaction's
generation and is at most the youngest generation captured at the start of the check.
-/
def entryWasOverwritten (gen txnGen youngest : Generation) : Bool :=
  decide (txnGen < gen) && decide (gen ≤ youngest)

/-- The error message shared by the transactional read conflict and the commit's
tracked-read conflict. -/
def conflictMsg : String :=
  "Requested key was already overwritten since the start of the transaction!"

/-- The tail-recursive core of `read_txn_under_lock` (`backend_stl.cpp:326-372`),
processing the tasks in order: a key found in `upserted` yields its uncommitted bytes,
a key in `removed` yields the null view, otherwise the main store is consulted — with
the conflict check against the captured `youngest` and, under tracking, an emplace
into `requested` (generation of the found record, or `0` for a missing key). -/
def readTxnGo (db : StlDb) (track : Bool) (youngest : Generation) :
    StlTxn → List Place → List (Option Bytes) →
    StlTxn × Except String (List (Option Bytes))
  | txn, [], acc => (txn, .ok acc.reverse)
  | txn, p :: rest, acc =>
    match upsFind p txn.upserted with
    | some bs => readTxnGo db track youngest txn rest (some bs :: acc)
    | none =>
      if p ∈ txn.removed then readTxnGo db track youngest txn rest (none :: acc)
      else
        match pairsFind p.2 (db.cols p.1).pairs with
        | some v =>
          if entryWasOverwritten v.generation txn.generation youngest then
            (txn, .error conflictMsg)
          else
            let r := if v.isDeleted then none else some v.buffer
            let txn' := if track then
              { txn with requested := requestedEmplace p v.generation txn.requested }
              else txn
            readTxnGo db track youngest txn' rest (r :: acc)
        | none =>
          let txn' := if track then
            { txn with requested := requestedEmplace p 0 txn.requested }
            else txn
          readTxnGo db track youngest txn' rest (none :: acc)

/-- `read_txn_under_lock`, capturing `youngest_generation` once on entry. -/
def readTxn (db : StlDb) (txn : StlTxn) (track : Bool) (tasks : List Place) :
    StlTxn × Except String (List (Option Bytes)) :=
  readTxnGo db track db.youngest txn tasks []

/-! ## Commit (`ukv_transaction_commit`, `backend_stl.cpp:932-1034`) -/

/-- Step 1 of the commit protocol, per tracked read: the check fires exactly when a
record for the key currently exists and its generation differs from the observed one
(`backend_stl.cpp:950-958`; no other condition is consulted). -/
def commitCheckRead (db : StlDb) (e : Place × Generation) : Bool :=
  match pairsFind e.1.2 (db.cols e.1.1).pairs with
  | none => false
  | some v => decide (v.generation ≠ e.2)

/-- Step 2 of the commit protocol, per upserted key (`backend_stl.cpp:961-973`). -/
def commitCheckUpsert (db : StlDb) (txnGen youngest : Generation) (e : Place × Bytes) :
    Option String :=
  match pairsFind e.1.2 (db.cols e.1.1).pairs with
  | none => none
  | some v =>
    if v.generation = txnGen then some "Can't commit same entry more than once!"
    else if entryWasOverwritten v.generation txnGen youngest then
      some "Incoming key collides with newer entry!"
    else none

/-- Step 3 of the commit protocol, per removed key (`backend_stl.cpp:976-988`). -/
def commitCheckRemove (db : StlDb) (txnGen youngest : Generation) (ck : Place) :
    Option String :=
  match pairsFind ck.2 (db.cols ck.1).pairs with
  | none => none
  | some v =>
    if v.generation = txnGen then some "Can't commit same entry more than once!"
    else if entryWasOverwritten v.generation txnGen youngest then
      some "Removed key collides with newer entry!"
    else none

/-- Step 5 of the commit protocol, per upserted key (`backend_stl.cpp:999-1019`): an
existing entry gets the transaction's generation and the new buffer, its tombstone
flag untouched; an absent key is emplaced live and `unique_elements` grows. -/
def commitApplyUpsert (gen : Generation) (db : StlDb) : Place × Bytes → StlDb
  | ((c, k), bs) =>
    match pairsFind k (db.cols c).pairs with
    | some v =>
      { cols := updateCols db.cols c
          ⟨pairsReplace k ⟨bs, gen, v.isDeleted⟩ (db.cols c).pairs,
            (db.cols c).uniqueElements⟩,
        youngest := db.youngest }
    | none =>
      { cols := updateCols db.cols c
          ⟨pairsInsert k ⟨bs, gen, false⟩ (db.cols c).pairs,
            (db.cols c).uniqueElements + 1⟩,
        youngest := db.youngest }

/-- Step 6 of the commit protocol, per removed key (`backend_stl.cpp:1022-1029`):
an existing entry is reset to a tombstone at the transaction's generation. -/
def commitApplyRemove (gen : Generation) (db : StlDb) : Place → StlDb
  | (c, k) =>
    match pairsFind k (db.cols c).pairs with
    | some _ =>
      { cols := updateCols db.cols c
          ⟨pairsReplace k (StlValue.reset gen) (db.cols c).pairs,
            (db.cols c).uniqueElements⟩,
        youngest := db.youngest }
    | none => db

/-- Steps 5-6 of the commit protocol: import the upserts, then the removals. -/
def commitApply (db : StlDb) (txn : StlTxn) : StlDb :=
  txn.removed.foldl (commitApplyRemove txn.generation)
    (txn.upserted.foldl (commitApplyUpsert txn.generation) db)

/-- `ukv_transaction_commit`: capture `Y := youngest_generation` once, run the three
check loops in order returning the first failure, then apply the overlay. -/
def transactionCommit (db : StlDb) (txn : StlTxn) : Except String StlDb :=
  match txn.requested.findSome?
      (fun e => if commitCheckRead db e then some conflictMsg else none) with
  | some msg => .error msg
  | none =>
    match txn.upserted.findSome? (commitCheckUpsert db txn.generation db.youngest) with
    | some msg => .error msg
    | none =>
      match txn.removed.findSome? (commitCheckRemove db txn.generation db.youngest) with
      | some msg => .error msg
      | none => .ok (commitApply db txn)

/-- The error message of an `Except` result, `none` on success. -/
def exceptErrorMsg {α : Type} : Except String α → Option String
  | .error m => some m
  | .ok _ => none

/-- The success value of an `Except` result, `none` on error. -/
def exceptOkVal {α : Type} : Except String α → Option α
  | .ok a => some a
  | .error _ => none

theorem upsFind_assign_self (ck : Place) (bs : Bytes) (l : List (Place × Bytes)) :
    upsFind ck (upsAssign ck bs l) = some bs := by
  induction l with
  | nil => simp [upsAssign, upsFind]
  | cons p t ih =>
    obtain ⟨ck', bs'⟩ := p
    by_cases hlt : colKeyLt ck ck'
    · simp [upsAssign, hlt, upsFind]
    · by_cases heq : ck = ck'
      · subst heq
        simp [upsAssign, hlt, upsFind]
      · have hne : ¬ ck' = ck := fun h => heq h.symm
        simp [upsAssign, hlt, heq, upsFind, hne]
        exact ih

theorem upsFind_erase_self (ck : Place) (l : List (Place × Bytes)) :
    upsFind ck (upsErase ck l) = none := by
  induction l with
  | nil => rfl
  | cons p t ih =>
    obtain ⟨ck', bs'⟩ := p
    by_cases h : ck' = ck
    · simpa [upsErase, h] using ih
    · simp [upsErase, h, upsFind, ih]

theorem mem_removedInsert (ck : Place) (l : List Place) : ck ∈ removedInsert ck l := by
  unfold removedInsert
  by_cases h : ck ∈ l
  · simp only [if_pos h]
    exact h
  · simp [h]

/-- Counterexample to claim C8: in one transaction, delete key `(0, 3)` and then upsert
it again — the upsert is recorded, yet `(0, 3)` is still in the remove set, so the
upsert map and remove set are not disjoint: an upsert does not evict a matching entry
from `removed`. -/
theorem writeTxn_upsert_keeps_removed :
    upsFind (0, 3) (writeTxn ⟨[], [], [], 1⟩ [((0, 3), none), ((0, 3), some [5])]).upserted
        = some [5] ∧
    (0, 3) ∈ (writeTxn ⟨[], [], [], 1⟩ [((0, 3), none), ((0, 3), some [5])]).removed := by
  constructor
  · rfl
  · decide

/-- Claim C8, amended: recording a deletion evicts the key from the upsert map and
inserts it into the remove set, but recording an upsert leaves the remove set exactly
as it was (no eviction) while recording the payload in the upsert map; the two
containers can therefore share a key. -/
theorem writeTxnStep_overlay (txn : StlTxn) (c : ColId) (k : Key) (v : Bytes) :
    upsFind (c, k) (writeTxnStep txn ((c, k), none)).upserted = none ∧
    (c, k) ∈ (writeTxnStep txn ((c, k), none)).removed ∧
    (writeTxnStep txn ((c, k), some v)).removed = txn.removed ∧
    upsFind (c, k) (writeTxnStep txn ((c, k), some v)).upserted = some v := by
  refine ⟨?_, ?_, rfl, ?_⟩
  · exact upsFind_erase_self _ _
  · exact mem_removedInsert _ _
  · exact upsFind_assign_self _ _ _

/-- Counterexample to claim C5: a non-transactional batch writing two keys stamps them
with two distinct generations (`youngest + 1` and `youngest + 2`), not one shared
batch generation — `write_head` executes `++youngest_generation` once per key-write. -/
theorem writeHead_batch_generations_differ :
    (pairsFind 1 ((writeHead emptyDb [((0, 1), some [10]), ((0, 2), some [20])]).cols 0).pairs).map
        StlValue.generation = some 1 ∧
    (pairsFind 2 ((writeHead emptyDb [((0, 1), some [10]), ((0, 2), some [20])]).cols 0).pairs).map
        StlValue.generation = some 2 ∧
    some (1 : Generation) ≠ some 2 := by
  refine ⟨?_, ?_, by decide⟩ <;> decide

/-- Claim C5, amended: every key-write in a head batch issues its own fresh generation
by incrementing `youngest_generation`; two updates to the same key in one batch leave
the last-index value, stamped with the generation of its own (second) increment
`youngest + 2` — not a single shared batch generation. -/
theorem writeHead_same_key_last_wins (db : StlDb) (c : ColId) (k : Key) (v₁ v₂ : Bytes) :
    pairsFind k ((writeHead db [((c, k), some v₁), ((c, k), some v₂)]).cols c).pairs =
      some ⟨v₂, db.youngest + 2, false⟩ ∧
    (writeHead db [((c, k), some v₁), ((c, k), some v₂)]).youngest = db.youngest + 2 := by
  have h1 := writeHeadStep_some db c k v₁
  have h2 := writeHeadStep_some (writeHeadStep db ((c, k), some v₁)) c k v₂
  have hw : writeHead db [((c, k), some v₁), ((c, k), some v₂)] =
      writeHeadStep (writeHeadStep db ((c, k), some v₁)) ((c, k), some v₂) := rfl
  rw [hw]
  refine ⟨?_, ?_⟩
  · rw [h2.2.1, h1.1]
  · rw [h2.1, h1.1]

/-- Counterexample to claim C10: writing the zero-length but non-null payload to key
`(0, 4)` is not a deletion — the head entry stays live with an empty buffer, a read
reports the key as present with length `0` (not the missing sentinel), and the
transactional write records it in the upsert map, leaving the remove set empty. -/
theorem empty_payload_is_not_deletion :
    pairsFind 4 ((writeHead emptyDb [((0, 4), some [])]).cols 0).pairs =
      some ⟨[], 1, false⟩ ∧
    readHeadOne (writeHead emptyDb [((0, 4), some [])]) (0, 4) = some [] ∧
    presenceBit (readHeadOne (writeHead emptyDb [((0, 4), some [])]) (0, 4)) = true ∧
    lengthField (readHeadOne (writeHead emptyDb [((0, 4), some [])]) (0, 4)) = 0 ∧
    (writeTxn ⟨[], [], [], 1⟩ [((0, 4), some [])]).upserted = [((0, 4), [])] ∧
    (writeTxn ⟨[], [], [], 1⟩ [((0, 4), some [])]).removed = [] := by
  refine ⟨by decide, by decide, by decide, by decide, rfl, rfl⟩

/-- Claim C10, amended: only a null content is a deletion. A zero-length non-null
payload is an ordinary upsert: the head write leaves the entry live with an empty
buffer at a fresh generation, a subsequent read reports presence with length `0`, and
a transactional write records the empty payload in the upsert map without touching
the remove set. -/
theorem empty_payload_upserts (db : StlDb) (txn : StlTxn) (c : ColId) (k : Key) :
    pairsFind k ((writeHead db [((c, k), some [])]).cols c).pairs =
      some ⟨[], db.youngest + 1, false⟩ ∧
    readHeadOne (writeHead db [((c, k), some [])]) (c, k) = some [] ∧
    presenceBit (readHeadOne (writeHead db [((c, k), some [])]) (c, k)) = true ∧
    lengthField (readHeadOne (writeHead db [((c, k), some [])]) (c, k)) = 0 ∧
    upsFind (c, k) (writeTxnStep txn ((c, k), some [])).upserted = some [] ∧
    (writeTxnStep txn ((c, k), some [])).removed = txn.removed := by
  have h := writeHeadStep_some db c k []
  have hw : writeHead db [((c, k), some [])] = writeHeadStep db ((c, k), some []) := rfl
  have hro : readHeadOne (writeHead db [((c, k), some [])]) (c, k) = some [] := by
    rw [hw]
    unfold readHeadOne
    rw [h.2.1]
    simp
  refine ⟨by rw [hw]; exact h.2.1, hro, ?_, ?_, upsFind_assign_self _ _ _, rfl⟩
  · rw [hro]; rfl
  · rw [hro]; rfl

/-! ## Claim C3: the commit's tracked-read check -/

theorem findSome_if_eq_any {α : Type} (p : α → Bool) (m : String) (l : List α) :
    l.findSome? (fun e => if p e then some m else none) =
      if l.any p then some m else none := by
  induction l with
  | nil => rfl
  | cons a t ih =>
    by_cases h : p a
    · simp [List.findSome?, List.any_cons, h]
    · simp [List.findSome?, List.any_cons, h, ih]

/-- A run reaching the C3 counterexample state: transaction A begins (generation 1),
then transaction B begins (generation 2). -/
def c3DbB : StlDb := (transactionBegin (transactionBegin emptyDb 0).2 0).2

/-- Transaction B after a tracked read of the absent key `(0, 5)`: the read records
observed generation `0`. -/
def c3TxnB : StlTxn :=
  (readTxn c3DbB (transactionBegin (transactionBegin emptyDb 0).2 0).1 true [(0, 5)]).1

/-- The database after transaction A (generation 1) upserts key `(0, 5)` and commits:
the record for key 5 carries generation 1, while `youngest` stays 2. -/
def c3Db : StlDb :=
  match transactionCommit c3DbB
      (writeTxn (transactionBegin emptyDb 0).1 [((0, 5), some [9])]) with
  | .ok d => d
  | .error _ => emptyDb

/-- Counterexample to claim C3: transaction B (generation 2) tracked key `(0, 5)` at
observed generation `0`; a lower-generation transaction A then committed the key at
generation `1`. B's commit rejects with the conflict error although the record's
generation `1` does not exceed B's generation `2` — the commit check consults only
existence and generation inequality, not the claim's `> txn generation` and `≤ Y`
window. -/
theorem commit_read_check_ignores_window :
    c3TxnB.requested = [((0, 5), 0)] ∧
    c3TxnB.generation = 2 ∧
    (pairsFind 5 (c3Db.cols 0).pairs).map StlValue.generation = some 1 ∧
    exceptErrorMsg (transactionCommit c3Db c3TxnB) = some conflictMsg ∧
    ¬ (2 < 1) := by
  refine ⟨by decide, by decide, by decide, by decide, by decide⟩

/-- Claim C3, amended: for a transaction whose overlay holds no upserts and no
removals, commit rejects with the conflict error if and only if some tracked read
`(col, key) → g` has a currently existing record whose generation differs from `g` —
the record's relation to the transaction's generation or to the youngest generation
`Y` is not consulted. -/
theorem commit_rejects_tracked_read_iff (db : StlDb) (txn : StlTxn)
    (hu : txn.upserted = []) (hr : txn.removed = []) :
    exceptErrorMsg (transactionCommit db txn) = some conflictMsg ↔
      txn.requested.any (commitCheckRead db) = true := by
  unfold transactionCommit
  rw [hu, hr]
  rw [findSome_if_eq_any (commitCheckRead db) conflictMsg txn.requested]
  by_cases h : txn.requested.any (commitCheckRead db)
  · simp [h, exceptErrorMsg]
  · simp [h, exceptErrorMsg, List.findSome?]

/-- Witness for the amended C3 theorem at the counterexample run. -/
theorem commit_rejects_tracked_read_iff_witness :
    exceptErrorMsg (transactionCommit c3Db c3TxnB) = some conflictMsg :=
  (commit_rejects_tracked_read_iff c3Db c3TxnB (by decide) (by decide)).mpr (by decide)

/-! ## Claim C6: no transaction poisoning -/

theorem readTxnGo_overlay (db : StlDb) (track : Bool) (y : Generation)
    (tasks : List Place) :
    ∀ (txn : StlTxn) (acc : List (Option Bytes)),
      (readTxnGo db track y txn tasks acc).1.upserted = txn.upserted ∧
      (readTxnGo db track y txn tasks acc).1.removed = txn.removed ∧
      (readTxnGo db track y txn tasks acc).1.generation = txn.generation := by
  induction tasks with
  | nil =>
    intro txn acc
    exact ⟨rfl, rfl, rfl⟩
  | cons p rest ih =>
    intro txn acc
    unfold readTxnGo
    cases hu : upsFind p txn.upserted with
    | some bs =>
      exact ih txn _
    | none =>
      by_cases hrem : p ∈ txn.removed
      · simp only [if_pos hrem]
        exact ih txn _
      · simp only [if_neg hrem]
        cases hf : pairsFind p.2 (db.cols p.1).pairs with
        | some v =>
          by_cases hov : entryWasOverwritten v.generation txn.generation y = true
          · simp [hov]
          · simp only [if_neg hov]
            by_cases htrack : track
            · simpa [htrack] using
                ih { txn with requested := requestedEmplace p v.generation txn.requested } _
            · simpa [htrack] using ih txn _
        | none =>
          by_cases htrack : track
          · simpa [htrack] using
              ih { txn with requested := requestedEmplace p 0 txn.requested } _
          · simpa [htrack] using ih txn _

/-- Claim C6, amended: the transaction object stores no failure state, so a read that
fails with the conflict error poisons nothing: the overlay (upsert map, remove set)
and the generation come out of any read call unchanged, and a subsequent transactional
upsert on the returned transaction executes normally, recording its payload. -/
theorem readTxn_never_poisons (db : StlDb) (txn : StlTxn) (track : Bool)
    (tasks : List Place) :
    (readTxn db txn track tasks).1.upserted = txn.upserted ∧
    (readTxn db txn track tasks).1.removed = txn.removed ∧
    (readTxn db txn track tasks).1.generation = txn.generation ∧
    ∀ (c : ColId) (k : Key) (v : Bytes),
      upsFind (c, k)
        (writeTxnStep (readTxn db txn track tasks).1 ((c, k), some v)).upserted = some v := by
  have h := readTxnGo_overlay db track db.youngest tasks txn []
  exact ⟨h.1, h.2.1, h.2.2, fun c k v => upsFind_assign_self (c, k) v _⟩

/-- The database of the C6 counterexample: a transaction begins at generation 1, then
a head write moves key `(0, 7)` to generation 2 (concurrent committed write). -/
def c6Db : StlDb := writeHead (transactionBegin emptyDb 0).2 [((0, 7), some [3])]

/-- The transaction of the C6 counterexample, begun before the conflicting head
write. -/
def c6Txn : StlTxn := (transactionBegin emptyDb 0).1

/-- Counterexample to claim C6: the transaction's read of key `(0, 7)` fails with the
conflict error, yet the transaction is not poisoned — a following transactional write
on it performs its work (the upsert is recorded) and a following read returns success,
not the previous error. -/
theorem failed_txn_keeps_working :
    exceptErrorMsg (readTxn c6Db c6Txn true [(0, 7)]).2 = some conflictMsg ∧
    (writeTxn (readTxn c6Db c6Txn true [(0, 7)]).1 [((0, 9), some [1])]).upserted
        = [((0, 9), [1])] ∧
    exceptOkVal (readTxn c6Db
        (writeTxn (readTxn c6Db c6Txn true [(0, 7)]).1 [((0, 9), some [1])])
        true [(0, 9)]).2 = some [some [1]] := by
  refine ⟨by decide, by decide, by decide⟩

/-! ## Claim C7: the `unique_elements` counter -/

/-- `ukv_collection_drop` with `ukv_drop_vals_k` (`backend_stl.cpp:835-839`): issue one
fresh generation and reset every entry of the collection to a tombstone at it;
`unique_elements` is left alone. -/
def collectionDropVals (db : StlDb) (c : ColId) : StlDb :=
  { cols := updateCols db.cols c
      ⟨((db.cols c).pairs).map (fun p => (p.1, StlValue.reset (db.youngest + 1))),
        (db.cols c).uniqueElements⟩,
    youngest := db.youngest + 1 }

/-- `ukv_collection_drop` with `ukv_drop_keys_vals_k` (`backend_stl.cpp:830-833`):
clear the pairs and zero `unique_elements`. -/
def collectionDropKeysVals (db : StlDb) (c : ColId) : StlDb :=
  { cols := updateCols db.cols c ⟨[], 0⟩, youngest := db.youngest }

/-- The operations that mutate collections under the exclusive write lock. -/
inductive LockedOp where
  | write (batch : List WriteTask)
  | commitOf (txn : StlTxn)
  | dropVals (c : ColId)
  | dropKeysVals (c : ColId)

/-- Execute one write-locked operation; a commit whose checks fail leaves the database
untouched. -/
def applyLockedOp (db : StlDb) : LockedOp → StlDb
  | .write b => writeHead db b
  | .commitOf t =>
    match transactionCommit db t with
    | .ok d => d
    | .error _ => db
  | .dropVals c => collectionDropVals db c
  | .dropKeysVals c => collectionDropKeysVals db c

/-- Execute a sequence of write-locked operations. -/
def runLockedOps (db : StlDb) (ops : List LockedOp) : StlDb :=
  ops.foldl applyLockedOp db

/-- The number of stored entries whose tombstone flag is clear — the claim's
"live-entry" count. -/
def liveCount (col : StlCol) : Nat :=
  (col.pairs.filter (fun p => !p.2.isDeleted)).length

/-- The invariant `unique_elements` actually maintains: it counts the stored entries,
tombstones included. -/
def uniqueInv (db : StlDb) : Prop :=
  ∀ c, (db.cols c).uniqueElements = (db.cols c).pairs.length

theorem pairsReplace_length (k : Key) (v : StlValue) (l : List (Key × StlValue)) :
    (pairsReplace k v l).length = l.length := by
  induction l with
  | nil => rfl
  | cons p t ih =>
    obtain ⟨k0, v0⟩ := p
    by_cases h : k0 = k
    · simp [pairsReplace, h]
    · simp [pairsReplace, h, ih]

theorem pairsInsert_length_of_absent (k : Key) (v : StlValue) (l : List (Key × StlValue))
    (h : pairsFind k l = none) : (pairsInsert k v l).length = l.length + 1 := by
  induction l with
  | nil => rfl
  | cons p t ih =>
    obtain ⟨k0, v0⟩ := p
    by_cases hlt : k < k0
    · simp [pairsInsert, hlt]
    · by_cases heq : k = k0
      · rw [pairsFind, if_pos heq.symm] at h
        exact absurd h (by simp)
      · rw [pairsFind, if_neg (fun hh : k0 = k => heq hh.symm)] at h
        simp [pairsInsert, hlt, heq, ih h]

theorem uniqueInv_writeHeadStep (db : StlDb) (t : WriteTask) (h : uniqueInv db) :
    uniqueInv (writeHeadStep db t) := by
  obtain ⟨⟨c, k⟩, content⟩ := t
  intro c'
  cases hfind : pairsFind k (db.cols c).pairs with
  | some w =>
    simp only [writeHeadStep, hfind]
    by_cases hc : c' = c
    · subst hc
      simp [updateCols, pairsReplace_length, h c']
    · simp [updateCols, hc, h c']
  | none =>
    cases content with
    | some bs =>
      simp only [writeHeadStep, hfind]
      by_cases hc : c' = c
      · subst hc
        simp [updateCols, pairsInsert_length_of_absent k _ _ hfind, h c']
      · simp [updateCols, hc, h c']
    | none =>
      simp only [writeHeadStep, hfind]
      exact h c'

theorem uniqueInv_foldl {α : Type} (f : StlDb → α → StlDb)
    (hf : ∀ db a, uniqueInv db → uniqueInv (f db a)) :
    ∀ (l : List α) (db : StlDb), uniqueInv db → uniqueInv (l.foldl f db) := by
  intro l
  induction l with
  | nil =>
    intro db h
    exact h
  | cons a t ih =>
    intro db h
    exact ih _ (hf db a h)

theorem uniqueInv_commitApplyUpsert (gen : Generation) (db : StlDb) (e : Place × Bytes)
    (h : uniqueInv db) : uniqueInv (commitApplyUpsert gen db e) := by
  obtain ⟨⟨c, k⟩, bs⟩ := e
  intro c'
  cases hfind : pairsFind k (db.cols c).pairs with
  | some w =>
    simp only [commitApplyUpsert, hfind]
    by_cases hc : c' = c
    · subst hc
      simp [updateCols, pairsReplace_length, h c']
    · simp [updateCols, hc, h c']
  | none =>
    simp only [commitApplyUpsert, hfind]
    by_cases hc : c' = c
    · subst hc
      simp [updateCols, pairsInsert_length_of_absent k _ _ hfind, h c']
    · simp [updateCols, hc, h c']

theorem uniqueInv_commitApplyRemove (gen : Generation) (db : StlDb) (ck : Place)
    (h : uniqueInv db) : uniqueInv (commitApplyRemove gen db ck) := by
  obtain ⟨c, k⟩ := ck
  intro c'
  cases hfind : pairsFind k (db.cols c).pairs with
  | some w =>
    simp only [commitApplyRemove, hfind]
    by_cases hc : c' = c
    · subst hc
      simp [updateCols, pairsReplace_length, h c']
    · simp [updateCols, hc, h c']
  | none =>
    simp only [commitApplyRemove, hfind]
    exact h c'

theorem uniqueInv_commitApply (db : StlDb) (txn : StlTxn) (h : uniqueInv db) :
    uniqueInv (commitApply db txn) :=
  uniqueInv_foldl _ (fun d ck hd => uniqueInv_commitApplyRemove txn.generation d ck hd) _ _
    (uniqueInv_foldl _ (fun d e hd => uniqueInv_commitApplyUpsert txn.generation d e hd) _ _ h)

theorem uniqueInv_applyLockedOp (db : StlDb) (op : LockedOp) (h : uniqueInv db) :
    uniqueInv (applyLockedOp db op) := by
  cases op with
  | write b =>
    exact uniqueInv_foldl _ uniqueInv_writeHeadStep b db h
  | commitOf t =>
    simp only [applyLockedOp]
    cases hc : transactionCommit db t with
    | ok d =>
      have : d = commitApply db t := by
        unfold transactionCommit at hc
        cases h1 : t.requested.findSome?
            (fun e => if commitCheckRead db e then some conflictMsg else none) with
        | some m => rw [h1] at hc; exact absurd hc (by simp)
        | none =>
          rw [h1] at hc
          cases h2 : t.upserted.findSome? (commitCheckUpsert db t.generation db.youngest) with
          | some m => rw [h2] at hc; exact absurd hc (by simp)
          | none =>
            rw [h2] at hc
            cases h3 : t.removed.findSome? (commitCheckRemove db t.generation db.youngest) with
            | some m => rw [h3] at hc; exact absurd hc (by simp)
            | none =>
              rw [h3] at hc
              simpa using hc.symm
      rw [this]
      exact uniqueInv_commitApply db t h
    | error m => exact h
  | dropVals c =>
    intro c'
    by_cases hc : c' = c
    · subst hc
      simp [applyLockedOp, collectionDropVals, updateCols, h c']
    · simp [applyLockedOp, collectionDropVals, updateCols, hc, h c']
  | dropKeysVals c =>
    intro c'
    by_cases hc : c' = c
    · subst hc
      simp [applyLockedOp, collectionDropKeysVals, updateCols]
    · simp [applyLockedOp, collectionDropKeysVals, updateCols, hc, h c']

/-- Claim C7, amended: `unique_elements` does not track the live entries — it counts
the unique keys ever inserted, i.e. all stored entries, tombstones included; that
invariant holds after every sequence of write-locked operations (head writes, commits
and both destructive drop modes). Tombstoning a live key leaves the counter
unchanged. -/
theorem uniqueElements_counts_all_entries (db : StlDb) (ops : List LockedOp)
    (h : uniqueInv db) : uniqueInv (runLockedOps db ops) :=
  uniqueInv_foldl _ (fun d op hd => uniqueInv_applyLockedOp d op hd) ops db h

/-- Witness for the amended C7 theorem: a write followed by a same-key deletion,
starting from the empty database. -/
theorem uniqueElements_counts_all_entries_witness :
    uniqueInv (runLockedOps emptyDb [.write [((0, 1), some [7]), ((0, 1), none)]]) :=
  uniqueElements_counts_all_entries emptyDb [.write [((0, 1), some [7]), ((0, 1), none)]]
    (fun _ => rfl)

/-- Counterexample to claim C7: write key `(0, 1)` and then delete it in a second head
write — the stored entry is a tombstone, the live-entry count is `0`, yet
`unique_elements` still reads `1`: deleting a live key does not decrement it. -/
theorem uniqueElements_is_not_liveCount :
    ((writeHead emptyDb [((0, 1), some [7]), ((0, 1), none)]).cols 0).uniqueElements = 1 ∧
    liveCount ((writeHead emptyDb [((0, 1), some [7]), ((0, 1), none)]).cols 0) = 0 ∧
    (1 : Nat) ≠ 0 := by
  refine ⟨by decide, by decide, by decide⟩

/-! ## Claim C2: scans -/

/-- `std::map::lower_bound(k)`: the suffix starting at the first entry with key ≥ `k`. -/
def lowerBound (k : Key) (l : List (Key × StlValue)) : List (Key × StlValue) :=
  l.dropWhile (fun p => p.1 < k)

/-- The `scan_head` task loop (`backend_stl.cpp:402-413`): advance from the lower
bound while the emitted count is below the limit and the key is below `max_key`,
skipping tombstones. -/
def scanHeadLoop (maxKey : Key) : Nat → List (Key × StlValue) → List Key
  | _, [] => []
  | r, (k, v) :: t =>
    if r = 0 then []
    else if maxKey ≤ k then []
    else if v.isDeleted then scanHeadLoop maxKey r t
    else k :: scanHeadLoop maxKey (r - 1) t

/-- `scan_head` for one task. -/
def scanHead (db : StlDb) (c : ColId) (minKey maxKey : Key) (limit : Nat) : List Key :=
  scanHeadLoop maxKey limit (lowerBound minKey (db.cols c).pairs)

/--
`txn.upserted.lower_bound(scan.min_key)` in `scan_txn`. Modelled from the spec for the
conversion: `col_key_t`'s converting constructor from a bare key (declared in a header
that is not under `src/`) leaves the collection at its default, the main collection
`0`, so the lower bound is taken at `(0, min_key)` in the map's (collection, key)
lexicographic order.
-/
def upsLowerBound (minKey : Key) (l : List (Place × Bytes)) : List (Place × Bytes) :=
  l.dropWhile (fun p => colKeyLt p.1 (0, minKey))

/-- The trailing loop of `scan_txn` (`backend_stl.cpp:479-485`): drain the remaining
overlay upserts while the limit allows, the collection matches and the key is below
`max_key`. -/
def scanTxnTail (c : ColId) (maxKey : Key) : Nat → List (Place × Bytes) → List Key
  | 0, _ => []
  | _, [] => []
  | r + 1, (ck, _) :: t =>
    if ck.1 = c ∧ ck.2 < maxKey then ck.2 :: scanTxnTail c maxKey r t
    else []

/-- The merge loop of `scan_txn` (`backend_stl.cpp:450-476`), faithful to the source:
while the limit allows and head entries remain — skip tombstoned or
transaction-removed head entries; emit the overlay key whenever the overlay iterator
sits on this collection at a key `≤` the head key (advancing only the overlay
iterator); break to the tail loop once the head key reaches `max_key`; otherwise emit
the head key. -/
def scanTxnLoop (c : ColId) (maxKey : Key) (removed : List Place) :
    List (Key × StlValue) → List (Place × Bytes) → Nat → List Key
  | [], ups, r => scanTxnTail c maxKey r ups
  | (k, v) :: pt, ups, r =>
    if r = 0 then []
    else if v.isDeleted ∨ (c, k) ∈ removed then scanTxnLoop c maxKey removed pt ups r
    else
      match ups with
      | (ck, b) :: ut =>
        if ck.1 = c ∧ ck.2 ≤ k then
          ck.2 :: scanTxnLoop c maxKey removed ((k, v) :: pt) ut (r - 1)
        else if maxKey ≤ k then scanTxnTail c maxKey r ((ck, b) :: ut)
        else k :: scanTxnLoop c maxKey removed pt ((ck, b) :: ut) (r - 1)
      | [] =>
        if maxKey ≤ k then []
        else k :: scanTxnLoop c maxKey removed pt [] (r - 1)
termination_by pairs ups _ => pairs.length + ups.length

/-- `scan_txn` for one task. -/
def scanTxn (txn : StlTxn) (db : StlDb) (c : ColId) (minKey maxKey : Key)
    (limit : Nat) : List Key :=
  scanTxnLoop c maxKey txn.removed (lowerBound minKey (db.cols c).pairs)
    (upsLowerBound minKey txn.upserted) limit

theorem scanHeadLoop_length (maxKey : Key) :
    ∀ (r : Nat) (l : List (Key × StlValue)), (scanHeadLoop maxKey r l).length ≤ r := by
  intro r l
  induction l generalizing r with
  | nil => simp [scanHeadLoop]
  | cons p t ih =>
    obtain ⟨k, v⟩ := p
    by_cases hr : r = 0
    · simp [scanHeadLoop, hr]
    · by_cases hm : maxKey ≤ k
      · simp [scanHeadLoop, hr, hm]
      · by_cases hd : v.isDeleted = true
        · simp only [scanHeadLoop, if_neg hr, if_neg hm, if_pos hd]
          exact ih r
        · simp only [scanHeadLoop, if_neg hr, if_neg hm, if_neg hd, List.length_cons]
          have := ih (r - 1)
          omega

theorem scanHeadLoop_sublist (maxKey : Key) :
    ∀ (r : Nat) (l : List (Key × StlValue)),
      List.Sublist (scanHeadLoop maxKey r l) (l.map Prod.fst) := by
  intro r l
  induction l generalizing r with
  | nil => simp [scanHeadLoop]
  | cons p t ih =>
    obtain ⟨k, v⟩ := p
    by_cases hr : r = 0
    · simp [scanHeadLoop, hr]
    · by_cases hm : maxKey ≤ k
      · simp [scanHeadLoop, hr, hm]
      · by_cases hd : v.isDeleted = true
        · simp only [scanHeadLoop, if_neg hr, if_neg hm, if_pos hd, List.map_cons]
          exact (ih r).cons k
        · simp only [scanHeadLoop, if_neg hr, if_neg hm, if_neg hd, List.map_cons]
          exact (ih (r - 1)).cons₂ k

theorem scanHeadLoop_lt_max (maxKey : Key) :
    ∀ (r : Nat) (l : List (Key × StlValue)) (x : Key),
      x ∈ scanHeadLoop maxKey r l → x < maxKey := by
  intro r l
  induction l generalizing r with
  | nil => intro x hx; simp [scanHeadLoop] at hx
  | cons p t ih =>
    obtain ⟨k, v⟩ := p
    intro x hx
    by_cases hr : r = 0
    · simp [scanHeadLoop, hr] at hx
    · by_cases hm : maxKey ≤ k
      · simp [scanHeadLoop, hr, hm] at hx
      · by_cases hd : v.isDeleted = true
        · simp only [scanHeadLoop, if_neg hr, if_neg hm, if_pos hd] at hx
          exact ih r x hx
        · simp only [scanHeadLoop, if_neg hr, if_neg hm, if_neg hd, List.mem_cons] at hx
          rcases hx with rfl | hx
          · exact lt_of_not_le hm
          · exact ih (r - 1) x hx

theorem lowerBound_ge (k : Key) (l : List (Key × StlValue))
    (h : List.Pairwise (fun a b => a.1 < b.1) l) :
    ∀ p ∈ lowerBound k l, k ≤ p.1 := by
  induction l with
  | nil =>
    intro p hp
    simp [lowerBound] at hp
  | cons a t ih =>
    intro p hp
    rw [List.pairwise_cons] at h
    unfold lowerBound at hp
    rw [List.dropWhile_cons] at hp
    by_cases ha : a.1 < k
    · rw [if_pos (by simpa using ha)] at hp
      exact ih h.2 p hp
    · rw [if_neg (by simpa using ha)] at hp
      rcases List.mem_cons.mp hp with rfl | hpt
      · exact le_of_not_lt ha
      · exact le_of_lt (lt_of_le_of_lt (le_of_not_lt ha) (h.1 p hpt))

theorem scanTxnTail_length (c : ColId) (maxKey : Key) :
    ∀ (r : Nat) (l : List (Place × Bytes)), (scanTxnTail c maxKey r l).length ≤ r := by
  intro r l
  induction l generalizing r with
  | nil => cases r <;> simp [scanTxnTail]
  | cons p t ih =>
    obtain ⟨ck, b⟩ := p
    cases r with
    | zero => simp [scanTxnTail]
    | succ n =>
      by_cases hc : ck.1 = c ∧ ck.2 < maxKey
      · simp only [scanTxnTail, if_pos hc, List.length_cons]
        have := ih n
        omega
      · simp [scanTxnTail, hc]

theorem scanTxnLoop_length (c : ColId) (maxKey : Key) (removed : List Place) :
    ∀ (pairs : List (Key × StlValue)) (ups : List (Place × Bytes)) (r : Nat),
      (scanTxnLoop c maxKey removed pairs ups r).length ≤ r
  | [], ups, r => by
    rw [scanTxnLoop.eq_def]
    simpa using scanTxnTail_length c maxKey r ups
  | (k, v) :: pt, ups, r => by
    rw [scanTxnLoop.eq_def]
    by_cases hr : r = 0
    · simp [hr]
    · by_cases hskip : v.isDeleted = true ∨ (c, k) ∈ removed
      · have := scanTxnLoop_length c maxKey removed pt ups r
        simp only [if_neg hr, if_pos hskip]
        exact this
      · cases ups with
        | nil =>
          by_cases hm2 : maxKey ≤ k
          · simp [hr, hskip, hm2]
          · have := scanTxnLoop_length c maxKey removed pt [] (r - 1)
            simp only [if_neg hr, if_neg hskip, if_neg hm2, List.length_cons]
            omega
        | cons q ut =>
          obtain ⟨ck, b⟩ := q
          by_cases hin : ck.1 = c ∧ ck.2 ≤ k
          · have := scanTxnLoop_length c maxKey removed ((k, v) :: pt) ut (r - 1)
            simp only [if_neg hr, if_neg hskip, if_pos hin, List.length_cons]
            omega
          · by_cases hm2 : maxKey ≤ k
            · have := scanTxnTail_length c maxKey r ((ck, b) :: ut)
              simp only [if_neg hr, if_neg hskip, if_neg hin, if_pos hm2]
              exact this
            · have := scanTxnLoop_length c maxKey removed pt ((ck, b) :: ut) (r - 1)
              simp only [if_neg hr, if_neg hskip, if_neg hin, if_neg hm2,
                List.length_cons]
              omega
termination_by pairs ups _ => pairs.length + ups.length

/-- Claim C2, amended: head scans satisfy the claim in full — over a key-sorted
collection the emitted keys are strictly ascending (hence no key appears twice), all
lie in `[start, end)`, and at most `limit` are emitted. For transactional scans only
the limit bound survives: the merge advances only the overlay iterator when the
overlay key equals the head key, so such a key is emitted twice, and overlay keys are
emitted before the head key is compared against `end` (see the counterexample). -/
theorem scan_props (db : StlDb) (c : ColId) (minKey maxKey : Key) (limit : Nat)
    (txn : StlTxn) (h : List.Pairwise (fun a b => a.1 < b.1) (db.cols c).pairs) :
    List.Pairwise (· < ·) (scanHead db c minKey maxKey limit) ∧
    (∀ x ∈ scanHead db c minKey maxKey limit, minKey ≤ x ∧ x < maxKey) ∧
    (scanHead db c minKey maxKey limit).length ≤ limit ∧
    (scanTxn txn db c minKey maxKey limit).length ≤ limit := by
  have hlb : List.Sublist (lowerBound minKey (db.cols c).pairs) (db.cols c).pairs :=
    (List.dropWhile_suffix _).sublist
  have hsub := scanHeadLoop_sublist maxKey limit (lowerBound minKey (db.cols c).pairs)
  refine ⟨?_, ?_, scanHeadLoop_length maxKey limit _, scanTxnLoop_length c maxKey _ _ _ _⟩
  · have hkeys : List.Pairwise (· < ·) ((db.cols c).pairs.map Prod.fst) := by
      rw [List.pairwise_map]
      exact h
    exact List.Pairwise.sublist (hsub.trans (hlb.map Prod.fst)) hkeys
  · intro x hx
    refine ⟨?_, scanHeadLoop_lt_max maxKey limit _ x hx⟩
    have hx' : x ∈ (lowerBound minKey (db.cols c).pairs).map Prod.fst := hsub.subset hx
    obtain ⟨p, hp, rfl⟩ := List.mem_map.mp hx'
    exact lowerBound_ge minKey (db.cols c).pairs h p hp

/-- A sorted two-key database used to witness the amended C2 theorem. -/
def c2WitnessDb : StlDb := writeHead emptyDb [((0, 1), some [5]), ((0, 3), some [6])]

/-- Witness for the amended C2 theorem: its sortedness hypothesis holds on a concrete
two-key database and the head-scan limit bound follows by applying the theorem. -/
theorem scan_props_witness :
    List.Pairwise (fun a b => a.1 < b.1) (c2WitnessDb.cols 0).pairs ∧
    (scanHead c2WitnessDb 0 0 10 10).length ≤ 10 :=
  ⟨by decide, (scan_props c2WitnessDb 0 0 10 10 ⟨[], [], [], 1⟩ (by decide)).2.2.1⟩

/-- The head state of the C2 counterexample: key `5` written at head. -/
def c2Db : StlDb := writeHead emptyDb [((0, 5), some [7])]

/-- The transaction of the C2 counterexample: it upserts the same key `5`. -/
def c2Txn : StlTxn := writeTxn (transactionBegin c2Db 0).1 [((0, 5), some [9])]

/-- Counterexample to claim C2: a transactional scan over `[0, 10)` with limit `10`,
where key `5` is live at head and also upserted in the transaction, emits `[5, 5]` —
the same key twice, so the emitted sequence is not strictly ascending. -/
theorem scan_txn_emits_duplicate :
    scanTxn c2Txn (transactionBegin c2Db 0).2 0 0 10 10 = [5, 5] ∧
    ¬ List.Pairwise (fun (a b : Key) => a < b) [(5 : Key), 5] := by
  constructor
  · simp [scanTxn, c2Txn, c2Db, scanTxnLoop, scanTxnTail, upsLowerBound, lowerBound,
      writeHead, writeHeadStep, writeTxn, writeTxnStep, transactionBegin, emptyDb, emptyCol,
      updateCols, pairsFind, pairsInsert, pairsReplace, contentIsMissing, upsAssign, upsErase,
      colKeyLt, StlValue.reset, List.dropWhile]
  · decide

/-! ## Claim C4: persistence on close -/

/-- `sizeof(ukv_size_t)` with `ukv_size_t = uint64_t` (`include/ukv/db.h:79`). -/
def sizeofUkvSizeT : Nat := 8

/-- `sizeof(ukv_key_t)` with `ukv_key_t = int64_t` (`include/ukv/db.h:63`). -/
def sizeofUkvKeyT : Nat := 8

/-- `sizeof(ukv_length_t)` with `ukv_length_t = uint32_t` (`include/ukv/db.h:78`). -/
def sizeofUkvLengthT : Nat := 4

/-- `std::fwrite(ptr, size, count, handle)` returns the number of complete items it
wrote, i.e. `count` when the write fully succeeds (the modelled file system never
fails). `save_to_disk` compares this item count against byte sizes. -/
def fwriteItems (itemCount : Nat) : Nat := itemCount

/-- The entry loop of `save_to_disk` (`backend_stl.cpp:140-154`), skipping tombstones,
with the source's `return_if_error` conditions kept verbatim: the key and length
writes require `saved_len != sizeof(...)`, and the payload write requires
`saved_len != buf.size()`. -/
def saveEntriesLoop : List (Key × StlValue) → Except String Unit
  | [] => .ok ()
  | (_, v) :: t =>
    if v.isDeleted then saveEntriesLoop t
    else if ¬ (fwriteItems 1 ≠ sizeofUkvKeyT) then
      .error "Write partially failed on key."
    else if ¬ (fwriteItems 1 ≠ sizeofUkvLengthT) then
      .error "Write partially failed on value len."
    else if ¬ (fwriteItems v.buffer.length ≠ v.buffer.length) then
      .error "Write partially failed on value."
    else saveEntriesLoop t

/-- `save_to_disk` for one collection (`backend_stl.cpp:119-157`): writing the entry
count requires `fwrite`'s item count (`1`) to equal `sizeof(ukv_size_t)` (`8`), else
the function fails; on success the live entries would follow. -/
def saveToDiskCol (col : StlCol) : Except String Unit :=
  if fwriteItems 1 = sizeofUkvSizeT then saveEntriesLoop col.pairs
  else .error "Couldn't write anything to file."

/-- `ukv_database_free` (`backend_stl.cpp:1054-1059`): it deletes the in-memory object
and performs no persistence at all, so the on-disk directory keeps exactly its prior
contents, whatever `persisted_path` holds. -/
def ukvDatabaseFree (diskFiles : List (String × List Nat)) (_db : StlDb) :
    List (String × List Nat) :=
  diskFiles

/-- Claim C4 (code bug): closing the database persists nothing. `ukv_database_free`
leaves the on-disk state untouched, and even an explicit `save_to_disk` fails
unconditionally with the count-write error, because `fwrite` returns the item count
`1` while the check demands it equal `sizeof(ukv_size_t) = 8`. The round-trip of the
claim therefore cannot succeed for any collection. -/
theorem close_persists_nothing (files : List (String × List Nat)) (db : StlDb)
    (col : StlCol) :
    ukvDatabaseFree files db = files ∧
    saveToDiskCol col = .error "Couldn't write anything to file." :=
  ⟨rfl, by simp [saveToDiskCol, fwriteItems, sizeofUkvSizeT]⟩

/-! ## Claim C9: zero key stride -/

/-- A strided key array (`strided_iterator_gt<ukv_key_t const>`): stride `0` repeats
the first element at every index, a full stride walks the array contiguously — the
two layouts the backend consumes. -/
structure StridedKeys where
  vals : List Key
  repeats : Bool

/-- `keys[i]` through the strided iterator: with stride `0` every index yields the
first key. -/
def stridedKeyGet (ks : StridedKeys) (i : Nat) : Key :=
  if ks.repeats then ks.vals.headD 0 else ks.vals.getD i 0

/-- The `ukv_write` head path (`backend_stl.cpp:585-628`): after the database null
check there is no stride validation of any kind — the strided key iterator is
consumed as-is for `c_tasks_count` tasks. -/
def ukvWriteHead (db : StlDb) (c : ColId) (keys : StridedKeys)
    (contents : List (Option Bytes)) (n : Nat) : Except String StlDb :=
  .ok (writeHead db
    ((List.range n).map fun i => ((c, stridedKeyGet keys i), contents.getD i none)))

/-- The `ukv_read` head path (`backend_stl.cpp:512-583`): likewise free of stride
validation. -/
def ukvReadHead (db : StlDb) (c : ColId) (keys : StridedKeys) (n : Nat) :
    Except String (List (Option Bytes)) :=
  .ok (readHead db ((List.range n).map fun i => (c, stridedKeyGet keys i)))

/-- Counterexample to claim C9: a two-task head write whose key array has byte stride
`0` is not rejected — no `InvalidArgument` is raised; both tasks target the single
repeated key `1` and the write does mutate the database (key `1` ends at the second
task's payload). A stride-0 two-task read succeeds as well, returning that payload
twice. -/
theorem stride_zero_not_rejected :
    exceptErrorMsg (ukvWriteHead emptyDb 0 ⟨[1], true⟩ [some [5], some [6]] 2) = none ∧
    (exceptOkVal (ukvWriteHead emptyDb 0 ⟨[1], true⟩ [some [5], some [6]] 2)).map
        (fun d => readHeadOne d (0, 1)) = some (some [6]) ∧
    exceptOkVal (ukvReadHead (writeHead emptyDb [((0, 1), some [6])]) 0 ⟨[1], true⟩ 2)
        = some [some [6], some [6]] := by
  refine ⟨rfl, by decide, by decide⟩

/-- Claim C9, amended: a zero key stride is accepted rather than rejected: the strided
iterator yields the same first key at every task index, so the call succeeds and
equals the corresponding batch over that one repeated key. -/
theorem stride_zero_means_repeated_key (db : StlDb) (c : ColId) (k : Key)
    (contents : List (Option Bytes)) (n : Nat) :
    ukvWriteHead db c ⟨[k], true⟩ contents n =
      .ok (writeHead db ((List.range n).map fun i => ((c, k), contents.getD i none))) ∧
    ukvReadHead db c ⟨[k], true⟩ n =
      .ok (readHead db ((List.range n).map fun _ => (c, k))) := by
  constructor <;> simp [ukvWriteHead, ukvReadHead, stridedKeyGet]

end UkvStl
